import Mathlib

/-!
# Atlasify backend (`index.js`): the video filter and the topic handlers

A shallow embedding of the request handlers of `index.js`.

* `isoToSec` and the `/api/youtube` pipeline
  (`map → filter → filter → sort → slice`) are embedded over a small fragment
  of JavaScript values, because the source mixes numbers and strings in one
  expression and the language's coercion rules decide what it computes.
* The `/api/roadmap`, `/api/articles`, `/api/projects` handlers are embedded
  as functions of the request body and of the outcome of the upstream call.

JavaScript numbers are modelled by exact natural numbers.  This agrees with
the IEEE doubles of the language as long as every value stays below `2^53`
(and number-to-string conversion agrees below `10^21`).
-/

namespace Atlasify

/-! ## A fragment of JavaScript values -/

/-- The JavaScript values that occur while a duration is decoded. -/
inductive JSVal where
  | undefined
  | nan
  | num (n : Nat)
  | str (s : String)
  deriving DecidableEq, Repr

/-- Value of a sequence of decimal digits, most significant digit first. -/
def decimalValue (ds : List Char) : Nat :=
  ds.foldl (fun acc c => 10 * acc + (c.toNat - 48)) 0

/-- The abstract operation `ToBoolean`. -/
def toBoolean : JSVal → Bool
  | .undefined => false
  | .nan => false
  | .num n => n != 0
  | .str s => s.data != []

/-- The abstract operation `ToNumber`; `none` stands for `NaN`.  On strings
only the empty string and plain digit sequences are decoded; every other
string is `NaN` here.  The pipeline converts no other string, see
`isoToSec_number_or_digits`. -/
def toNumber : JSVal → Option Nat
  | .undefined => none
  | .nan => none
  | .num n => some n
  | .str s => if s.data.all Char.isDigit then some (decimalValue s.data) else none

/-- The abstract operation `ToString`. -/
def toStr : JSVal → String
  | .undefined => "undefined"
  | .nan => "NaN"
  | .num n => String.mk (Nat.toDigits 10 n)
  | .str s => s

/-- The operator `a || b`. -/
def jsOr (a b : JSVal) : JSVal := if toBoolean a then a else b

/-- The operator `a * b`: both operands are converted to numbers. -/
def jsMul (a b : JSVal) : JSVal :=
  match toNumber a, toNumber b with
  | some x, some y => .num (x * y)
  | _, _ => .nan

/-- The operator `a + b`: when either operand is a string the result is the
concatenation of the two operands converted to strings, otherwise the sum
of the two operands converted to numbers. -/
def jsAdd (a b : JSVal) : JSVal :=
  match a, b with
  | .str s, _ => .str (s ++ toStr b)
  | _, .str t => .str (toStr a ++ t)
  | _, _ =>
    match toNumber a, toNumber b with
    | some x, some y => .num (x + y)
    | _, _ => .nan

/-- The operator `a >= b` for a number `b`: the left operand is converted to
a number and a `NaN` compares false. -/
def jsGe (a : JSVal) (b : Nat) : Bool :=
  match toNumber a with
  | some x => decide (b ≤ x)
  | none => false

/-! ## `isoToSec` -/

/-- The sub-pattern `(\d+)X` tried at the head of the input: the captured
digits and the rest of the input.  `\d+` is greedy, and giving digits back
cannot help because the character that follows would still be a digit. -/
def digitsThen (x : Char) (cs : List Char) : Option (List Char × List Char) :=
  match cs.takeWhile Char.isDigit, cs.dropWhile Char.isDigit with
  | d :: ds, c :: rest => if c = x then some (d :: ds, rest) else none
  | _, _ => none

/-- The optional group `(?:(\d+)X)?`: the capture, if the group took part in
the match, and the rest of the input. -/
def optGroup (x : Char) (cs : List Char) : Option (List Char) × List Char :=
  match digitsThen x cs with
  | some (ds, rest) => (some ds, rest)
  | none => (none, cs)

/-- The three capture groups of a successful match. -/
structure Groups where
  h : Option (List Char)
  m : Option (List Char)
  s : Option (List Char)
  deriving DecidableEq, Repr

/-- The pattern `PT(?:(\d+)H)?(?:(\d+)M)?(?:(\d+)S)?` tried at the head of
the input. -/
def matchAt : List Char → Option Groups
  | 'P' :: 'T' :: r0 =>
    let gh := optGroup 'H' r0
    let gm := optGroup 'M' gh.2
    let gs := optGroup 'S' gm.2
    some ⟨gh.1, gm.1, gs.1⟩
  | _ => none

/-- The call `iso.match(/PT.../)` of a pattern without the global flag: the
match at the leftmost position where the pattern matches, `none` for `null`. -/
def isoMatch : List Char → Option Groups
  | [] => none
  | c :: cs =>
    match matchAt (c :: cs) with
    | some g => some g
    | none => isoMatch cs

/-- The expression `m?.[i]`: `undefined` when there is no match or the group
did not take part in it, the captured text otherwise. -/
def capture (g : Option (Option (List Char))) : JSVal :=
  match g with
  | some (some ds) => .str (String.mk ds)
  | _ => .undefined

/-- The function `isoToSec` of the `/api/youtube` handler:
`(m?.[1] || 0) * 3600 + (m?.[2] || 0) * 60 + (m?.[3] || 0)`. -/
def isoToSec (iso : String) : JSVal :=
  let m := isoMatch iso.data
  jsAdd
    (jsAdd (jsMul (jsOr (capture (m.map Groups.h)) (.num 0)) (.num 3600))
           (jsMul (jsOr (capture (m.map Groups.m)) (.num 0)) (.num 60)))
    (jsOr (capture (m.map Groups.s)) (.num 0))

/-- The call `isoToSec(x)` on an arbitrary value: `iso.match` throws a
`TypeError` unless `iso` is a string. -/
def isoToSecCall : JSVal → Except String JSVal
  | .str s => .ok (isoToSec s)
  | _ => .error "TypeError"

/-! ## The `/api/youtube` pipeline -/

/-- An item of `detailsData.items`, restricted to the fields the handler
reads.  `viewCount` is the unsigned count of `statistics.viewCount` (sent as
decimal digits), `none` when the field is absent. -/
structure RawVideo where
  id : String
  title : String
  description : String
  thumbnail : String
  duration : String
  viewCount : Option Nat
  deriving DecidableEq, Repr

/-- A record of the response. -/
structure Video where
  id : String
  title : String
  description : String
  thumbnail : String
  duration : String
  durationSec : JSVal
  views : Nat
  deriving DecidableEq, Repr

/-- The constant `MIN_DURATION` (5 minutes). -/
def MIN_DURATION : Nat := 300

/-- The expression `Number(v.statistics.viewCount || 0)`. -/
def viewsOf (viewCount : Option Nat) : Nat :=
  match viewCount with
  | some n => n
  | none => 0

/-- The callback of `.map`. -/
def mapVideo (v : RawVideo) : Video :=
  { id := v.id
    title := v.title
    description := v.description
    thumbnail := v.thumbnail
    duration := v.duration
    durationSec := isoToSec v.duration
    views := viewsOf v.viewCount }

/-- Case folding of a pattern with the `i` flag and without the `u` flag:
characters are compared after upper-casing.  A character outside ASCII is
never folded onto an ASCII letter, so only `a`-`z` matter for this pattern. -/
def canonicalize (c : Char) : Char := c.toUpper

/-- The alternatives of `/tutorial|course|learn/i`. -/
def keywords : List (List Char) := ["tutorial".data, "course".data, "learn".data]

/-- The pattern `/tutorial|course|learn/i` tried at the head of the input. -/
def keywordAt (cs : List Char) : Bool :=
  keywords.any fun kw => (kw.map canonicalize).isPrefixOf (cs.map canonicalize)

/-- The call `/tutorial|course|learn/i.test(text)`: the pattern matches at
some position of the text. -/
def keywordTest (text : String) : Bool :=
  text.data.tails.any keywordAt

/-- Insertion of `x` in front of a sorted list: `x` moves past `y` only when
the comparator puts `x` strictly after `y`. -/
def sortInsert {α : Type} (cmp : α → α → Int) (x : α) : List α → List α
  | [] => [x]
  | y :: ys => if 0 < cmp x y then y :: sortInsert cmp x ys else x :: y :: ys

/-- The method `Array.prototype.sort(cmp)`.  The language requires the sort
to be stable, which fixes its result for a consistent comparator; it is
embedded as a stable insertion sort. -/
def arraySort {α : Type} (cmp : α → α → Int) : List α → List α
  | [] => []
  | x :: xs => sortInsert cmp x (arraySort cmp xs)

/-- The comparator `(a, b) => b.views - a.views`. -/
def byViewsDesc (a b : Video) : Int := (b.views : Int) - (a.views : Int)

/-- The pipeline up to its two filters: `.map(...).filter(...).filter(...)`. -/
def filteredVideos (items : List RawVideo) : List Video :=
  ((items.map mapVideo).filter fun v => jsGe v.durationSec MIN_DURATION).filter
    fun v => keywordTest (v.title ++ v.description)

/-- The value `videos` of the `/api/youtube` handler, as a function of
`detailsData.items`: the filtered records, `.sort(...)`, `.slice(0, 10)`. -/
def youtubeVideos (items : List RawVideo) : List Video :=
  (arraySort byViewsDesc (filteredVideos items)).take 10

/-! ## The topic handlers -/

/-- JSON values, as produced by `express.json()` and `JSON.parse` and as
sent by `res.json`.  Numbers are restricted to integers. -/
inductive Json where
  | null
  | bool (b : Bool)
  | num (n : Int)
  | str (s : String)
  | arr (xs : List Json)
  | obj (kvs : List (String × Json))
  deriving Repr

/-- Property access `body.key` on a parsed JSON object: `none` stands for
`undefined`. -/
def getField (key : String) : List (String × Json) → Option Json
  | [] => none
  | (k, v) :: rest => if k = key then some v else getField key rest

/-- The test `!x` fails: `ToBoolean` of a property value (`undefined` when
the property is absent). -/
def truthy : Option Json → Bool
  | none => false
  | some .null => false
  | some (.bool b) => b
  | some (.num n) => n != 0
  | some (.str s) => s.data != []
  | some (.arr _) => true
  | some (.obj _) => true

mutual
/-- The conversion `ToString` of a JSON value. -/
def jsonToString : Json → String
  | .null => "null"
  | .bool true => "true"
  | .bool false => "false"
  | .num n => toString n
  | .str s => s
  | .arr xs => joinElements xs
  | .obj _ => "[object Object]"
/-- The method `Array.prototype.join` with the separator `,`. -/
def joinElements : List Json → String
  | [] => ""
  | [x] => elementToString x
  | x :: y :: rest => elementToString x ++ "," ++ joinElements (y :: rest)
/-- An element inside `join`: `null` is rendered as the empty string. -/
def elementToString : Json → String
  | .null => ""
  | x => jsonToString x
end

/-- The interpolation `${topic}` of a template literal; `none` stands for
`undefined`. -/
def interpolate : Option Json → String
  | none => "undefined"
  | some j => jsonToString j

/-- A request of `openai.chat.completions.create`: the model and the
messages as (role, content) pairs. -/
structure ChatRequest where
  model : String
  messages : List (String × String)
  deriving DecidableEq, Repr

/-- What `await openai.chat.completions.create(...)` yields: the call
rejects, or it resolves and `response.choices[0].message.content` is a
string (`some`) or is not one (`none`, so that `.replace` throws). -/
inductive Upstream where
  | rejected
  | resolved (content : Option String)
  deriving DecidableEq, Repr

/-- A response: the status set by `res.status` (200 when it is not called)
and the value passed to `res.json`. -/
structure Response where
  status : Nat
  body : Json
  deriving Repr

/-- What a handler does: the requests it sent upstream, in order, and its
response. -/
structure Outcome where
  calls : List ChatRequest
  response : Response
  deriving Repr

/-- The markers of the pattern ``/```json|```/g``, the longer alternative
first. -/
def fences : List (List Char) := ["```json".data, "```".data]

/-- The call ``.replace(/```json|```/g, "")``: every match, found from left
to right, is removed.  `skip` counts the characters of the current match
that are still to be dropped. -/
def stripFencesFrom : Nat → List Char → List Char
  | _, [] => []
  | skip + 1, _ :: rest => stripFencesFrom skip rest
  | 0, c :: rest =>
    match fences.find? fun f => f.isPrefixOf (c :: rest) with
    | some f => stripFencesFrom (f.length - 1) rest
    | none => c :: stripFencesFrom 0 rest

/-- The call ``.replace(/```json|```/g, "")`` on a whole string. -/
def stripFences (cs : List Char) : List Char := stripFencesFrom 0 cs

/-- The white space and line terminators removed by `String.prototype.trim`. -/
def isTrimmed (c : Char) : Bool :=
  let n := c.toNat
  (9 ≤ n && n ≤ 13) || n == 0x20 || n == 0xA0 || n == 0x1680 ||
    (0x2000 ≤ n && n ≤ 0x200A) || n == 0x2028 || n == 0x2029 || n == 0x202F ||
    n == 0x205F || n == 0x3000 || n == 0xFEFF

/-- The method `String.prototype.trim`. -/
def jsTrim (cs : List Char) : List Char :=
  ((cs.dropWhile isTrimmed).reverse.dropWhile isTrimmed).reverse

/-- The value `clean`: the content without fence markers, trimmed. -/
def clean (content : String) : String :=
  String.mk (jsTrim (stripFences content.data))

/-- The body of the `try` block after the topic check, shared by the three
handlers: one upstream call, then `res.json(JSON.parse(clean))`; whatever
throws is caught and answered with the fallback.  `parse` is `JSON.parse`,
`none` when it throws. -/
def completeOrFallback (parse : String → Option Json) (llm : ChatRequest → Upstream)
    (request : ChatRequest) (fallback : Json) : Outcome :=
  match llm request with
  | .rejected => ⟨[request], ⟨200, fallback⟩⟩
  | .resolved none => ⟨[request], ⟨200, fallback⟩⟩
  | .resolved (some content) =>
    match parse (clean content) with
    | some parsed => ⟨[request], ⟨200, parsed⟩⟩
    | none => ⟨[request], ⟨200, fallback⟩⟩

/-- The response `res.status(400).json(\x7b error: "Topic required" \x7d)`. -/
def topicRequired : Response :=
  ⟨400, .obj [("error", .str "Topic required")]⟩

/-- The user message of `/api/roadmap`. -/
def roadmapPrompt (topic : String) : String :=
  "\nCreate a step-by-step learning roadmap for \"" ++ topic ++ "\"\n" ++
  "from beginner to advanced.\n\n" ++
  "⚠️ Only include educational steps, no general advice or unrelated suggestions.\n\n" ++
  "Return ONLY valid JSON:\n\n" ++
  "\x7b\n  \"roadmap\": [\n    \"Step 1: Basics\",\n    \"Step 2: Core Concepts\",\n" ++
  "    \"Step 3: Hands-on Practice\",\n    \"Step 4: Advanced Topics\",\n" ++
  "    \"Step 5: Real-world Projects\"\n  ]\n\x7d\n"

/-- The fallback of `/api/roadmap`. -/
def roadmapFallback : Json :=
  .obj [("roadmap", .arr [.str "Learn fundamentals", .str "Understand core concepts",
    .str "Practice with examples", .str "Build projects", .str "Advanced topics"])]

/-- The handler of `POST /api/roadmap`, on the object `req.body` that
`express.json()` produced from the request. -/
def roadmapHandler (parse : String → Option Json) (llm : ChatRequest → Upstream)
    (body : List (String × Json)) : Outcome :=
  let topic := getField "topic" body
  if !truthy topic then ⟨[], topicRequired⟩
  else
    completeOrFallback parse llm
      ⟨"gpt-4o-mini", [("system", "You are an expert curriculum designer."),
        ("user", roadmapPrompt (interpolate topic))]⟩
      roadmapFallback

/-- The user message of `/api/articles`. -/
def articlesPrompt (topic : String) : String :=
  "\nSuggest 5 educational, beginner-friendly articles for \"" ++ topic ++ "\"\n" ++
  "from trusted learning platforms like freeCodeCamp, MDN, GeeksforGeeks, W3Schools.\n\n" ++
  "Return ONLY JSON array:\n\n" ++
  "[\n  \x7b\n    \"title\": \"\",\n    \"description\": \"\",\n    \"author\": \"\",\n" ++
  "    \"url\": \"\"\n  \x7d\n]\n"

/-- The fallback of `/api/articles`. -/
def articlesFallback : Json :=
  .arr [.obj [("title", .str "Getting Started Guide"),
    ("description", .str "Beginner friendly introduction"),
    ("author", .str "freeCodeCamp"), ("url", .str "#")]]

/-- The handler of `POST /api/articles`, on the object `req.body` that
`express.json()` produced from the request. -/
def articlesHandler (parse : String → Option Json) (llm : ChatRequest → Upstream)
    (body : List (String × Json)) : Outcome :=
  let topic := getField "topic" body
  if !truthy topic then ⟨[], topicRequired⟩
  else
    completeOrFallback parse llm
      ⟨"gpt-4o-mini", [("system", "You are an expert educational content curator."),
        ("user", articlesPrompt (interpolate topic))]⟩
      articlesFallback

/-- The user message of `/api/projects`. -/
def projectsPrompt (topic : String) : String :=
  "\nSuggest 5 educational project ideas for \"" ++ topic ++ "\"\n" ++
  "suitable for beginners to advanced learners.\n\n" ++
  "Return ONLY JSON array:\n\n" ++
  "[\n  \"Project 1\",\n  \"Project 2\",\n  \"Project 3\",\n  \"Project 4\",\n" ++
  "  \"Project 5\"\n]\n"

/-- The fallback of `/api/projects`. -/
def projectsFallback : Json :=
  .arr [.str "Build a simple app", .str "Create a small game",
    .str "Develop a portfolio project", .str "Automate a task",
    .str "Open-source contribution"]

/-- The handler of `POST /api/projects`, on the object `req.body` that
`express.json()` produced from the request. -/
def projectsHandler (parse : String → Option Json) (llm : ChatRequest → Upstream)
    (body : List (String × Json)) : Outcome :=
  let topic := getField "topic" body
  if !truthy topic then ⟨[], topicRequired⟩
  else
    completeOrFallback parse llm
      ⟨"gpt-4o-mini", [("system", "You are an expert project mentor."),
        ("user", projectsPrompt (interpolate topic))]⟩
      projectsFallback

/-! ## The notions of the specification -/

/-- The text of a component `<n>X` of the duration notation; an absent
component contributes nothing. -/
def component (x : Char) : Option (List Char) → List Char
  | none => []
  | some ds => ds ++ [x]

/-- A decimal digit sequence: at least one character, all of them digits. -/
def IsDigits (ds : List Char) : Prop :=
  ds ≠ [] ∧ ∀ c ∈ ds, c.isDigit = true

/-- The string is, in its entirety, `PT[<h>H][<m>M][<s>S]` with the given
components, each of them optional and each a decimal digit sequence. -/
def WellFormed (iso : String) (h m s : Option (List Char)) : Prop :=
  (∀ ds, h = some ds → IsDigits ds) ∧ (∀ ds, m = some ds → IsDigits ds) ∧
    (∀ ds, s = some ds → IsDigits ds) ∧
    iso.data = 'P' :: 'T' :: (component 'H' h ++ (component 'M' m ++ component 'S' s))

/-- The text starts with a component: a decimal digit sequence followed by
one of the letters `H`, `M`, `S`. -/
def StartsWithComponent (cs : List Char) : Prop :=
  ∃ ds x rest, IsDigits ds ∧ x ∈ ['H', 'M', 'S'] ∧ cs = ds ++ x :: rest

/-- The string holds no duration: the letters `PT` do not occur next to each
other in it, or their first occurrence is not followed by a component. -/
def NoDuration (iso : String) : Prop :=
  (¬ "PT".data <:+: iso.data) ∨
    ∃ pre rest, iso.data = pre ++ 'P' :: 'T' :: rest ∧ (¬ "PT".data <:+: pre) ∧
      ¬ StartsWithComponent rest

/-- The number a component stands for, zero when it is absent. -/
def componentValue : Option (List Char) → Nat
  | none => 0
  | some ds => decimalValue ds

/-- The duration in seconds the notation stands for: `3600*h + 60*m + s`. -/
def specSeconds (h m s : Option (List Char)) : Nat :=
  3600 * componentValue h + 60 * componentValue m + componentValue s

/-- The text contains one of the words `tutorial`, `course`, `learn`, the
case of its letters disregarded. -/
def ContainsKeyword (text : String) : Prop :=
  ∃ kw ∈ ["tutorial", "course", "learn"], ∃ pre mid post : List Char,
    text.data = pre ++ (mid ++ post) ∧ mid.map Char.toLower = kw.data

/-- The upstream call of an outcome failed: a request was sent and it was
rejected or answered without a text. -/
def CallFailed (llm : ChatRequest → Upstream) (o : Outcome) : Prop :=
  ∃ r ∈ o.calls, llm r = .rejected ∨ llm r = .resolved none

/-- The text returned by the upstream call of an outcome, cleaned, does not
parse as JSON. -/
def TextUnparseable (parse : String → Option Json) (llm : ChatRequest → Upstream)
    (o : Outcome) : Prop :=
  ∃ r ∈ o.calls, ∃ text, llm r = .resolved (some text) ∧ parse (clean text) = none

/-! ## Auxiliary facts -/

theorem sortInsert_perm {α : Type} (cmp : α → α → Int) (x : α) (l : List α) :
    (sortInsert cmp x l).Perm (x :: l) := by
  induction l with
  | nil => simp [sortInsert]
  | cons y ys ih =>
    simp only [sortInsert]
    split
    · exact ((List.Perm.cons y ih).trans (List.Perm.swap x y ys))
    · exact List.Perm.refl _

theorem arraySort_perm {α : Type} (cmp : α → α → Int) (l : List α) :
    (arraySort cmp l).Perm l := by
  induction l with
  | nil => simp [arraySort]
  | cons x xs ih =>
    simp only [arraySort]
    exact (sortInsert_perm cmp x _).trans (List.Perm.cons x ih)

theorem sortInsert_sorted (x : Video) (l : List Video)
    (hl : l.Pairwise fun a b => b.views ≤ a.views) :
    (sortInsert byViewsDesc x l).Pairwise fun a b => b.views ≤ a.views := by
  induction l with
  | nil => simp [sortInsert]
  | cons y ys ih =>
    rw [List.pairwise_cons] at hl
    simp only [sortInsert]
    split
    · rename_i hxy
      have hlt : x.views < y.views := by
        simp only [byViewsDesc] at hxy
        omega
      rw [List.pairwise_cons]
      refine ⟨?_, ih hl.2⟩
      intro z hz
      have hz2 : z ∈ x :: ys := (List.Perm.mem_iff (sortInsert_perm byViewsDesc x ys)).1 hz
      rcases List.mem_cons.1 hz2 with h | h
      · subst h; omega
      · exact hl.1 z h
    · rename_i hxy
      have hle : y.views ≤ x.views := by
        simp only [byViewsDesc] at hxy
        omega
      rw [List.pairwise_cons]
      refine ⟨?_, List.pairwise_cons.2 hl⟩
      intro z hz
      rcases List.mem_cons.1 hz with h | h
      · subst h; exact hle
      · exact le_trans (hl.1 z h) hle

theorem arraySort_sorted (l : List Video) :
    (arraySort byViewsDesc l).Pairwise fun a b => b.views ≤ a.views := by
  induction l with
  | nil => simp [arraySort]
  | cons x xs ih => exact sortInsert_sorted x _ ih

theorem sortInsert_filter_views (n : Nat) (x : Video) (l : List Video) :
    (sortInsert byViewsDesc x l).filter (fun v => v.views == n) =
      (x :: l).filter (fun v => v.views == n) := by
  induction l with
  | nil => simp [sortInsert]
  | cons y ys ih =>
    simp only [sortInsert]
    split
    · rename_i hxy
      have hlt : x.views < y.views := by
        simp only [byViewsDesc] at hxy
        omega
      rw [List.filter_cons, ih]
      by_cases hy : y.views = n
      · have hx : ¬ x.views = n := by omega
        simp [List.filter_cons, hy, hx]
      · simp [List.filter_cons, hy]
    · rfl

theorem arraySort_filter_views (n : Nat) (l : List Video) :
    (arraySort byViewsDesc l).filter (fun v => v.views == n) =
      l.filter (fun v => v.views == n) := by
  induction l with
  | nil => simp [arraySort]
  | cons x xs ih =>
    simp only [arraySort]
    rw [sortInsert_filter_views, List.filter_cons, List.filter_cons, ih]

theorem filteredVideos_sublist (items : List RawVideo) :
    (filteredVideos items).Sublist (items.map mapVideo) :=
  (List.filter_sublist _).trans (List.filter_sublist _)

theorem mem_youtubeVideos {items : List RawVideo} {r : Video}
    (hr : r ∈ youtubeVideos items) : r ∈ filteredVideos items :=
  (arraySort_perm byViewsDesc _).mem_iff.1 (List.mem_of_mem_take hr)

theorem toNat_ofNat_small (m : Nat) (hm : m ≤ 122) : (Char.ofNat m).toNat = m := by
  interval_cases m <;> rfl

theorem toLower_of_toUpper_eq (c k : Char) (hk : 97 ≤ k.toNat ∧ k.toNat ≤ 122)
    (h : c.toUpper = k.toUpper) : c.toLower = k := by
  have hkU : k.toUpper = Char.ofNat (k.toNat - 32) := by
    simp only [Char.toUpper]
    rw [if_pos (by omega)]
  rw [hkU] at h
  by_cases hc : 97 ≤ c.toNat ∧ c.toNat ≤ 122
  · have hcU : c.toUpper = Char.ofNat (c.toNat - 32) := by
      simp only [Char.toUpper]
      rw [if_pos (by omega)]
    rw [hcU] at h
    have h2 := congrArg Char.toNat h
    rw [toNat_ofNat_small _ (by omega), toNat_ofNat_small _ (by omega)] at h2
    have h3 : c.toNat = k.toNat := by omega
    have h4 : c = k := by rw [← Char.ofNat_toNat c, h3, Char.ofNat_toNat]
    subst h4
    simp only [Char.toLower]
    rw [if_neg (by omega)]
  · have hcU : c.toUpper = c := by
      simp only [Char.toUpper]
      rw [if_neg (by omega)]
    rw [hcU] at h
    have h2 := congrArg Char.toNat h
    rw [toNat_ofNat_small _ (by omega)] at h2
    simp only [Char.toLower]
    rw [if_pos (by omega), h2]
    have : k.toNat - 32 + 32 = k.toNat := by omega
    rw [this, Char.ofNat_toNat]

theorem map_toLower_of_canonicalize_eq (mid kw : List Char)
    (hkw : ∀ k ∈ kw, 97 ≤ k.toNat ∧ k.toNat ≤ 122)
    (h : mid.map canonicalize = kw.map canonicalize) : mid.map Char.toLower = kw := by
  induction mid generalizing kw with
  | nil =>
    cases kw with
    | nil => rfl
    | cons k ks => simp at h
  | cons c cs ih =>
    cases kw with
    | nil => simp at h
    | cons k ks =>
      simp only [List.map_cons, List.cons.injEq] at h ⊢
      exact ⟨toLower_of_toUpper_eq c k (hkw k (List.mem_cons_self _ _)) h.1,
        ih ks (fun k' hk' => hkw k' (List.mem_cons_of_mem _ hk')) h.2⟩

theorem containsKeyword_of_keywordTest (text : String) (h : keywordTest text = true) :
    ContainsKeyword text := by
  simp only [keywordTest, List.any_eq_true] at h
  obtain ⟨t, ht, hat⟩ := h
  obtain ⟨pre, hpre⟩ := (List.mem_tails _ _).1 ht
  simp only [keywordAt, List.any_eq_true] at hat
  obtain ⟨kw, hkw, hpfx⟩ := hat
  obtain ⟨r, hr⟩ := List.isPrefixOf_iff_prefix.1 hpfx
  obtain ⟨mid, post, hsplit, hmid, -⟩ := List.map_eq_append_iff.1 hr.symm
  have hlow : ∀ k ∈ kw, 97 ≤ k.toNat ∧ k.toNat ≤ 122 := by
    simp only [keywords, List.mem_cons, List.mem_singleton, List.not_mem_nil, or_false] at hkw
    rcases hkw with h | h | h <;> subst h <;> decide
  have hlower := map_toLower_of_canonicalize_eq mid kw hlow hmid
  have htext : text.data = pre ++ (mid ++ post) := by rw [← hsplit, hpre]
  simp only [keywords, List.mem_cons, List.mem_singleton, List.not_mem_nil, or_false] at hkw
  rcases hkw with h | h | h
  · exact ⟨"tutorial", by simp, pre, mid, post, htext, by rw [hlower, h]⟩
  · exact ⟨"course", by simp, pre, mid, post, htext, by rw [hlower, h]⟩
  · exact ⟨"learn", by simp, pre, mid, post, htext, by rw [hlower, h]⟩

theorem decimalValue_foldl (ds : List Char) (acc : Nat) :
    ds.foldl (fun acc c => 10 * acc + (c.toNat - 48)) acc =
      acc * 10 ^ ds.length + decimalValue ds := by
  induction ds generalizing acc with
  | nil => simp [decimalValue]
  | cons d ds ih =>
    simp only [List.foldl_cons, List.length_cons, decimalValue]
    rw [ih, ih (10 * 0 + (d.toNat - 48))]
    ring

theorem decimalValue_append (a b : List Char) :
    decimalValue (a ++ b) = decimalValue a * 10 ^ b.length + decimalValue b := by
  simp only [decimalValue, List.foldl_append]
  rw [decimalValue_foldl b]
  rfl

theorem decimalValue_cons (d : Char) (ds : List Char) :
    decimalValue (d :: ds) = (d.toNat - 48) * 10 ^ ds.length + decimalValue ds := by
  have h := decimalValue_append [d] ds
  simpa [decimalValue] using h

theorem digitChar_value (k : Nat) (hk : k < 10) :
    (Nat.digitChar k).toNat - 48 = k ∧ (Nat.digitChar k).isDigit = true := by
  interval_cases k <;> exact ⟨rfl, rfl⟩

theorem toDigitsCore_value (fuel n : Nat) (ds : List Char) (hfuel : n < fuel) :
    decimalValue (Nat.toDigitsCore 10 fuel n ds) = n * 10 ^ ds.length + decimalValue ds := by
  induction fuel generalizing n ds with
  | zero => omega
  | succ fuel ih =>
    simp only [Nat.toDigitsCore]
    have hd := (digitChar_value (n % 10) (Nat.mod_lt _ (by decide))).1
    split
    · rename_i h0
      rw [decimalValue_cons, hd]
      have : n % 10 = n := by omega
      rw [this]
    · rename_i h0
      rw [ih (n / 10) _ (by omega), decimalValue_cons, hd, List.length_cons, pow_succ]
      have hn : n = 10 * (n / 10) + n % 10 := (Nat.div_add_mod n 10).symm
      generalize n / 10 = q at *
      generalize n % 10 = r at *
      subst hn
      ring

theorem toDigitsCore_digits (fuel n : Nat) (ds : List Char)
    (hds : ∀ c ∈ ds, c.isDigit = true) :
    ∀ c ∈ Nat.toDigitsCore 10 fuel n ds, c.isDigit = true := by
  induction fuel generalizing n ds with
  | zero => simpa [Nat.toDigitsCore] using hds
  | succ fuel ih =>
    simp only [Nat.toDigitsCore]
    have hd := (digitChar_value (n % 10) (Nat.mod_lt _ (by decide))).2
    have hcons : ∀ c ∈ Nat.digitChar (n % 10) :: ds, c.isDigit = true := by
      intro c hc
      rcases List.mem_cons.1 hc with h | h
      · rw [h]; exact hd
      · exact hds c h
    split
    · exact hcons
    · exact ih _ _ hcons

theorem toDigits_value (n : Nat) : decimalValue (Nat.toDigits 10 n) = n := by
  unfold Nat.toDigits
  rw [toDigitsCore_value _ _ _ (Nat.lt_succ_self n)]
  simp [decimalValue]

theorem toDigits_digits (n : Nat) : ∀ c ∈ Nat.toDigits 10 n, c.isDigit = true :=
  toDigitsCore_digits _ _ _ (by simp)

theorem takeWhile_digits_append (ds : List Char) (y : Char) (rest : List Char)
    (hds : ∀ c ∈ ds, c.isDigit = true) (hy : y.isDigit = false) :
    (ds ++ y :: rest).takeWhile Char.isDigit = ds ∧
      (ds ++ y :: rest).dropWhile Char.isDigit = y :: rest := by
  induction ds with
  | nil => simp [List.takeWhile, List.dropWhile, hy]
  | cons d ds ih =>
    have hd : d.isDigit = true := hds d (List.mem_cons_self _ _)
    have ih2 := ih (fun c hc => hds c (List.mem_cons_of_mem _ hc))
    simp [List.takeWhile, List.dropWhile, hd, ih2.1, ih2.2]

theorem digitsThen_present (x : Char) (ds rest : List Char) (hds : IsDigits ds)
    (hx : x.isDigit = false) :
    digitsThen x (ds ++ x :: rest) = some (ds, rest) := by
  obtain ⟨hne, hall⟩ := hds
  have h := takeWhile_digits_append ds x rest hall hx
  unfold digitsThen
  rw [h.1, h.2]
  cases ds with
  | nil => exact absurd rfl hne
  | cons d ds => simp

theorem digitsThen_other (x y : Char) (ds rest : List Char)
    (hds : ∀ c ∈ ds, c.isDigit = true) (hy : y.isDigit = false) (hxy : y ≠ x) :
    digitsThen x (ds ++ y :: rest) = none := by
  have h := takeWhile_digits_append ds y rest hds hy
  unfold digitsThen
  rw [h.1, h.2]
  cases ds with
  | nil => rfl
  | cons d ds => simp [hxy]

theorem optGroup_present (x : Char) (ds rest : List Char) (hds : IsDigits ds)
    (hx : x.isDigit = false) :
    optGroup x (component x (some ds) ++ rest) = (some ds, rest) := by
  simp only [component, List.append_assoc, List.singleton_append, optGroup]
  rw [digitsThen_present x ds rest hds hx]

theorem optGroup_other (x y : Char) (ds rest : List Char) (hds : IsDigits ds)
    (hy : y.isDigit = false) (hxy : y ≠ x) :
    optGroup x (component y (some ds) ++ rest) = (none, component y (some ds) ++ rest) := by
  simp only [component, List.append_assoc, List.singleton_append, optGroup]
  rw [digitsThen_other x y ds rest hds.2 hy hxy]

theorem matchAt_wellFormed (iso : String) (h m s : Option (List Char))
    (hw : WellFormed iso h m s) : matchAt iso.data = some ⟨h, m, s⟩ := by
  obtain ⟨hh, hm, hs, hdata⟩ := hw
  rw [hdata]
  simp only [matchAt]
  have hH : ('H' : Char).isDigit = false := by decide
  have hM : ('M' : Char).isDigit = false := by decide
  have hS : ('S' : Char).isDigit = false := by decide
  have e3 : optGroup 'S' (component 'S' s) = (s, []) := by
    cases s with
    | none => rfl
    | some ds =>
      have := optGroup_present 'S' ds [] (hs ds rfl) hS
      simpa using this
  have e2 : optGroup 'M' (component 'M' m ++ component 'S' s) = (m, component 'S' s) := by
    cases m with
    | some ds => exact optGroup_present 'M' ds _ (hm ds rfl) hM
    | none =>
      cases s with
      | none => rfl
      | some ds =>
        have := optGroup_other 'M' 'S' ds [] (hs ds rfl) hS (by decide)
        simpa using this
  have e1 : optGroup 'H' (component 'H' h ++ (component 'M' m ++ component 'S' s)) =
      (h, component 'M' m ++ component 'S' s) := by
    cases h with
    | some ds => exact optGroup_present 'H' ds _ (hh ds rfl) hH
    | none =>
      cases m with
      | some ds => exact optGroup_other 'H' 'M' ds _ (hm ds rfl) hM (by decide)
      | none =>
        cases s with
        | none => rfl
        | some ds =>
          have := optGroup_other 'H' 'S' ds [] (hs ds rfl) hS (by decide)
          simpa using this
  rw [e1]
  simp only
  rw [e2]
  simp only
  rw [e3]

theorem isoMatch_wellFormed (iso : String) (h m s : Option (List Char))
    (hw : WellFormed iso h m s) : isoMatch iso.data = some ⟨h, m, s⟩ := by
  have hm := matchAt_wellFormed iso h m s hw
  obtain ⟨-, -, -, hdata⟩ := hw
  rw [hdata] at hm ⊢
  simp only [isoMatch, hm]

theorem toNumber_digits (ds : List Char) (hds : ∀ c ∈ ds, c.isDigit = true) :
    toNumber (.str (String.mk ds)) = some (decimalValue ds) := by
  have hall : ds.all Char.isDigit = true := List.all_eq_true.2 hds
  simp [toNumber, hall]

theorem jsOr_capture (g : Option (List Char)) (hg : ∀ ds, g = some ds → IsDigits ds) :
    toNumber (jsOr (capture (some g)) (.num 0)) = some (componentValue g) := by
  cases g with
  | none => rfl
  | some ds =>
    obtain ⟨hne, hall⟩ := hg ds rfl
    have htrue : toBoolean (.str (String.mk ds)) = true := by
      cases ds with
      | nil => exact absurd rfl hne
      | cons d ds => rfl
    simp only [capture, jsOr, htrue, if_true, componentValue]
    exact toNumber_digits ds hall

theorem jsMul_capture (g : Option (List Char)) (k : Nat)
    (hg : ∀ ds, g = some ds → IsDigits ds) :
    jsMul (jsOr (capture (some g)) (.num 0)) (.num k) = .num (componentValue g * k) := by
  unfold jsMul
  rw [jsOr_capture g hg]
  rfl

/-- On a well-formed duration without a seconds component `isoToSec` returns
the number of seconds; with a seconds component it returns the digits of
`3600*h + 60*m` followed by the digits of the seconds component. -/
theorem isoToSec_wellFormed (iso : String) (h m s : Option (List Char))
    (hw : WellFormed iso h m s) :
    isoToSec iso =
      match s with
      | none => .num (componentValue h * 3600 + componentValue m * 60 + 0)
      | some ds =>
        .str (String.mk (Nat.toDigits 10 (componentValue h * 3600 + componentValue m * 60)) ++
          String.mk ds) := by
  have hmatch := isoMatch_wellFormed iso h m s hw
  obtain ⟨hh, hm, hs, -⟩ := hw
  simp only [isoToSec, hmatch, Option.map_some']
  rw [jsMul_capture h 3600 hh, jsMul_capture m 60 hm]
  cases s with
  | none => rfl
  | some ds =>
    obtain ⟨hne, hall⟩ := hs ds rfl
    have htrue : toBoolean (.str (String.mk ds)) = true := by
      cases ds with
      | nil => exact absurd rfl hne
      | cons d ds => rfl
    simp only [capture, jsOr, htrue, if_true]
    rfl

theorem matchAt_none (cs : List Char) (hpre : ¬ "PT".data <+: cs) : matchAt cs = none := by
  unfold matchAt
  split
  · rename_i r0
    exact absurd ⟨r0, rfl⟩ hpre
  · rfl

theorem isoMatch_none (cs : List Char) (hinf : ¬ "PT".data <:+: cs) : isoMatch cs = none := by
  induction cs with
  | nil => rfl
  | cons c cs ih =>
    have h1 : matchAt (c :: cs) = none :=
      matchAt_none _ (fun hp => hinf hp.isInfix)
    have h2 : isoMatch cs = none :=
      ih (fun hi => hinf (hi.trans (List.suffix_cons c cs).isInfix))
    simp only [isoMatch, h1, h2]

theorem digitsThen_some (x : Char) (cs ds rest : List Char)
    (h : digitsThen x cs = some (ds, rest)) : IsDigits ds ∧ cs = ds ++ x :: rest := by
  unfold digitsThen at h
  have hsplit := List.takeWhile_append_dropWhile Char.isDigit cs
  have hall : ∀ c ∈ cs.takeWhile Char.isDigit, c.isDigit = true :=
    fun c hc => List.mem_takeWhile_imp hc
  generalize cs.takeWhile Char.isDigit = tw at h hsplit hall
  generalize cs.dropWhile Char.isDigit = dw at h hsplit
  cases tw with
  | nil => simp at h
  | cons d tw =>
    cases dw with
    | nil => simp at h
    | cons c dw =>
      simp only at h
      split at h
      · rename_i hc
        simp only [Option.some.injEq, Prod.mk.injEq] at h
        obtain ⟨h1, h2⟩ := h
        subst h1 h2 hc
        exact ⟨⟨by simp, hall⟩, hsplit.symm⟩
      · simp at h

theorem optGroup_absent (x : Char) (hx : x ∈ ['H', 'M', 'S']) (cs : List Char)
    (hcs : ¬ StartsWithComponent cs) : optGroup x cs = (none, cs) := by
  unfold optGroup
  cases hd : digitsThen x cs with
  | none => rfl
  | some p =>
    obtain ⟨ds, rest⟩ := p
    obtain ⟨hds, hsplit⟩ := digitsThen_some x cs ds rest hd
    exact absurd ⟨ds, x, rest, hds, hx, hsplit⟩ hcs

theorem matchAt_no_component (rest : List Char) (hrest : ¬ StartsWithComponent rest) :
    matchAt ('P' :: 'T' :: rest) = some ⟨none, none, none⟩ := by
  simp only [matchAt]
  rw [optGroup_absent 'H' (by simp) rest hrest]
  simp only
  rw [optGroup_absent 'M' (by simp) rest hrest]
  simp only
  rw [optGroup_absent 'S' (by simp) rest hrest]

theorem isoMatch_first (pre rest : List Char) (hpre : ¬ "PT".data <:+: pre) :
    isoMatch (pre ++ 'P' :: 'T' :: rest) = matchAt ('P' :: 'T' :: rest) := by
  induction pre with
  | nil => simp [isoMatch, matchAt]
  | cons c pre ih =>
    have hhere : matchAt (c :: pre ++ 'P' :: 'T' :: rest) = none := by
      apply matchAt_none
      rintro ⟨t, ht⟩
      cases pre with
      | nil =>
        have h2 : 'P' :: 'T' :: t = c :: 'P' :: 'T' :: rest := ht
        simp only [List.cons.injEq] at h2
        exact absurd h2.2.1 (by decide)
      | cons d pre =>
        have h2 : 'P' :: 'T' :: t = c :: d :: (pre ++ 'P' :: 'T' :: rest) := ht
        simp only [List.cons.injEq] at h2
        obtain ⟨hc, hd, -⟩ := h2
        subst hc hd
        exact hpre (List.IsPrefix.isInfix ⟨pre, rfl⟩)
    have htail : ¬ "PT".data <:+: pre :=
      fun hi => hpre (hi.trans (List.suffix_cons c pre).isInfix)
    have hstep : isoMatch (c :: pre ++ 'P' :: 'T' :: rest) =
        isoMatch (pre ++ 'P' :: 'T' :: rest) := by
      simp only [List.cons_append] at hhere ⊢
      simp only [isoMatch, hhere]
    rw [hstep, ih htail]

theorem isoToSec_of_no_capture (iso : String)
    (hm : isoMatch iso.data = some ⟨none, none, none⟩) : isoToSec iso = .num 0 := by
  simp only [isoToSec, hm]
  rfl

theorem isoToSec_of_noDuration (iso : String) (h : NoDuration iso) : isoToSec iso = .num 0 := by
  rcases h with hinf | ⟨pre, rest, hdata, hpre, hrest⟩
  · simp only [isoToSec, isoMatch_none _ hinf]
    rfl
  · apply isoToSec_of_no_capture
    rw [hdata, isoMatch_first pre rest hpre, matchAt_no_component rest hrest]

theorem filteredVideos_spec {items : List RawVideo} {r : Video}
    (hr : r ∈ filteredVideos items) :
    r.durationSec = isoToSec r.duration ∧ jsGe r.durationSec MIN_DURATION = true ∧
      keywordTest (r.title ++ r.description) = true := by
  simp only [filteredVideos, List.mem_filter, List.mem_map] at hr
  obtain ⟨⟨⟨v, -, rfl⟩, hge⟩, hkw⟩ := hr
  exact ⟨rfl, hge, hkw⟩

theorem toUpper_of_toLower_eq (c k : Char) (hk : 97 ≤ k.toNat ∧ k.toNat ≤ 122)
    (h : c.toLower = k) : c.toUpper = k.toUpper := by
  by_cases hc : 65 ≤ c.toNat ∧ c.toNat ≤ 90
  · have hcL : c.toLower = Char.ofNat (c.toNat + 32) := by
      simp only [Char.toLower]
      rw [if_pos (by omega)]
    rw [hcL] at h
    have h2 := congrArg Char.toNat h
    rw [toNat_ofNat_small _ (by omega)] at h2
    have hkU : k.toUpper = Char.ofNat (k.toNat - 32) := by
      simp only [Char.toUpper]
      rw [if_pos (by omega)]
    have hcU : c.toUpper = c := by
      simp only [Char.toUpper]
      rw [if_neg (by omega)]
    rw [hkU, hcU, ← h2]
    have : c.toNat + 32 - 32 = c.toNat := by omega
    rw [this, Char.ofNat_toNat]
  · have hcL : c.toLower = c := by
      simp only [Char.toLower]
      rw [if_neg (by omega)]
    rw [hcL] at h
    rw [h]

theorem map_canonicalize_of_toLower_eq (mid kw : List Char)
    (hkw : ∀ k ∈ kw, 97 ≤ k.toNat ∧ k.toNat ≤ 122)
    (h : mid.map Char.toLower = kw) : mid.map canonicalize = kw.map canonicalize := by
  induction mid generalizing kw with
  | nil => subst h; rfl
  | cons c cs ih =>
    cases kw with
    | nil => simp at h
    | cons k ks =>
      simp only [List.map_cons, List.cons.injEq] at h ⊢
      exact ⟨toUpper_of_toLower_eq c k (hkw k (List.mem_cons_self _ _)) h.1,
        ih ks (fun k' hk' => hkw k' (List.mem_cons_of_mem _ hk')) h.2⟩

theorem keywordTest_of_containsKeyword (text : String) (h : ContainsKeyword text) :
    keywordTest text = true := by
  obtain ⟨kw, hkw, pre, mid, post, htext, hmid⟩ := h
  have hlow : ∀ k ∈ kw.data, 97 ≤ k.toNat ∧ k.toNat ≤ 122 := by
    simp only [List.mem_cons, List.mem_singleton, List.not_mem_nil, or_false] at hkw
    rcases hkw with h | h | h <;> subst h <;> decide
  have hmem : kw.data ∈ keywords := by
    simp only [List.mem_cons, List.mem_singleton, List.not_mem_nil, or_false] at hkw
    rcases hkw with h | h | h <;> subst h <;> simp [keywords]
  have hcanon := map_canonicalize_of_toLower_eq mid kw.data hlow hmid
  simp only [keywordTest, List.any_eq_true]
  refine ⟨mid ++ post, (List.mem_tails _ _).2 ⟨pre, htext.symm⟩, ?_⟩
  simp only [keywordAt, List.any_eq_true]
  refine ⟨kw.data, hmem, List.isPrefixOf_iff_prefix.2 ⟨post.map canonicalize, ?_⟩⟩
  rw [List.map_append, hcanon]

theorem optGroup_digits (x : Char) (cs ds : List Char)
    (h : (optGroup x cs).1 = some ds) : IsDigits ds := by
  unfold optGroup at h
  cases hd : digitsThen x cs with
  | none => simp [hd] at h
  | some p =>
    obtain ⟨ds2, rest⟩ := p
    simp only [hd, Option.some.injEq] at h
    subst h
    exact (digitsThen_some x cs ds2 rest hd).1

theorem matchAt_digits (cs : List Char) (g : Groups) (h : matchAt cs = some g) :
    (∀ ds, g.h = some ds → IsDigits ds) ∧ (∀ ds, g.m = some ds → IsDigits ds) ∧
      (∀ ds, g.s = some ds → IsDigits ds) := by
  unfold matchAt at h
  split at h
  · simp only [Option.some.injEq] at h
    subst h
    exact ⟨fun ds hd => optGroup_digits _ _ ds hd, fun ds hd => optGroup_digits _ _ ds hd,
      fun ds hd => optGroup_digits _ _ ds hd⟩
  · simp at h

theorem isoMatch_digits (cs : List Char) (g : Groups) (h : isoMatch cs = some g) :
    (∀ ds, g.h = some ds → IsDigits ds) ∧ (∀ ds, g.m = some ds → IsDigits ds) ∧
      (∀ ds, g.s = some ds → IsDigits ds) := by
  induction cs with
  | nil => simp [isoMatch] at h
  | cons c cs ih =>
    simp only [isoMatch] at h
    cases hm : matchAt (c :: cs) with
    | none =>
      rw [hm] at h
      exact ih h
    | some g2 =>
      rw [hm] at h
      simp only [Option.some.injEq] at h
      subst h
      exact matchAt_digits _ _ hm

/-- The values `isoToSec` can return: a number, or a string of decimal
digits.  These are the only values the pipeline converts to a number. -/
theorem isoToSec_number_or_digits (iso : String) :
    (∃ n, isoToSec iso = .num n) ∨
      ∃ ds, (∀ c ∈ ds, c.isDigit = true) ∧ isoToSec iso = .str (String.mk ds) := by
  cases hm : isoMatch iso.data with
  | none => exact Or.inl ⟨0, by simp only [isoToSec, hm]; rfl⟩
  | some g =>
    obtain ⟨hh, hmm, hs⟩ := isoMatch_digits _ g hm
    simp only [isoToSec, hm, Option.map_some']
    rw [jsMul_capture g.h 3600 hh, jsMul_capture g.m 60 hmm]
    cases hgs : g.s with
    | none => exact Or.inl ⟨_, rfl⟩
    | some ds =>
      obtain ⟨hne, hall⟩ := hs ds hgs
      have htrue : toBoolean (.str (String.mk ds)) = true := by
        cases ds with
        | nil => exact absurd rfl hne
        | cons d ds => rfl
      refine Or.inr ⟨Nat.toDigits 10 (componentValue g.h * 3600 + componentValue g.m * 60) ++ ds,
        ?_, ?_⟩
      · intro c hc
        rcases List.mem_append.1 hc with hc | hc
        · exact toDigits_digits _ c hc
        · exact hall c hc
      · simp only [capture, jsOr, htrue, if_true]
        rfl

/-- A stable sort has one possible result: two lists that are both in
descending order of views and in which the records of every view count occur
in the same order are equal. -/
theorem sorted_stable_unique (l₁ l₂ : List Video)
    (h₁ : l₁.Pairwise fun a b => b.views ≤ a.views)
    (h₂ : l₂.Pairwise fun a b => b.views ≤ a.views)
    (hcls : ∀ n, l₁.filter (fun v => v.views == n) = l₂.filter (fun v => v.views == n)) :
    l₁ = l₂ := by
  induction l₁ generalizing l₂ with
  | nil =>
    cases l₂ with
    | nil => rfl
    | cons b t₂ =>
      have h := hcls b.views
      simp [List.filter_cons] at h
  | cons a t₁ ih =>
    cases l₂ with
    | nil =>
      have h := hcls a.views
      simp [List.filter_cons] at h
    | cons b t₂ =>
      rw [List.pairwise_cons] at h₁ h₂
      have hab : a = b := by
        by_cases hv : b.views = a.views
        · have h := hcls a.views
          simp only [List.filter_cons, beq_self_eq_true, if_true, hv] at h
          exact (List.cons.inj h).1
        · have ha : a ∈ (b :: t₂).filter (fun v => v.views == a.views) := by
            rw [← hcls a.views]
            simp [List.filter_cons]
          have hb : b ∈ (a :: t₁).filter (fun v => v.views == b.views) := by
            rw [hcls b.views]
            simp [List.filter_cons]
          have ha2 : a ∈ b :: t₂ := (List.mem_filter.1 ha).1
          have hb2 : b ∈ a :: t₁ := (List.mem_filter.1 hb).1
          have hle1 : a.views ≤ b.views := by
            rcases List.mem_cons.1 ha2 with h | h
            · rw [h]
            · exact h₂.1 a h
          have hle2 : b.views ≤ a.views := by
            rcases List.mem_cons.1 hb2 with h | h
            · rw [h]
            · exact h₁.1 b h
          exact absurd (le_antisymm hle2 hle1) hv
      subst hab
      congr 1
      apply ih t₂ h₁.2 h₂.2
      intro n
      have h := hcls n
      simp only [List.filter_cons] at h
      split at h
      · exact (List.cons.inj h).2
      · exact h

/-- The result of `arraySort` is the only stable sorted arrangement of its
input. -/
theorem arraySort_unique (l out : List Video)
    (hsorted : out.Pairwise fun a b => b.views ≤ a.views)
    (hstable : ∀ n, out.filter (fun v => v.views == n) = l.filter (fun v => v.views == n)) :
    out = arraySort byViewsDesc l :=
  sorted_stable_unique out _ hsorted (arraySort_sorted l)
    (fun n => (hstable n).trans (arraySort_filter_views n l).symm)

/-! ## The claims -/

/-- C5: in the output of the pipeline every record has at least as many
views as the record that follows it, where the views of a record are the
view count of the item it was built from, zero when the count is missing. -/
theorem C5_output_sorted_by_views (items : List RawVideo) :
    List.Chain' (fun a b => b.views ≤ a.views) (youtubeVideos items) ∧
      (∀ r ∈ youtubeVideos items, ∃ v ∈ items, r = mapVideo v ∧ r.views = viewsOf v.viewCount) ∧
      viewsOf none = 0 := by
  refine ⟨?_, ?_, rfl⟩
  · exact List.Pairwise.chain'
      ((arraySort_sorted (filteredVideos items)).sublist (List.take_sublist 10 _))
  · intro r hr
    have hmem : r ∈ items.map mapVideo := (filteredVideos_sublist items).subset (mem_youtubeVideos hr)
    obtain ⟨v, hv, rfl⟩ := List.mem_map.1 hmem
    exact ⟨v, hv, rfl, rfl⟩

/-- C6: the ranking is stable.  For every view count, the output records
with that count occur in the order of the input items they were built from;
in particular, when `a` precedes `b` in the output and both have the same
views, `a` precedes `b` among the records built from the input list. -/
theorem C6_ranking_stable (items : List RawVideo) :
    (∀ n, ((youtubeVideos items).filter fun v => v.views == n).Sublist (items.map mapVideo)) ∧
      (∀ a b, [a, b].Sublist (youtubeVideos items) → a.views = b.views →
        [a, b].Sublist (items.map mapVideo)) := by
  have key : ∀ n, ((youtubeVideos items).filter fun v => v.views == n).Sublist
      (items.map mapVideo) := by
    intro n
    have h1 : ((youtubeVideos items).filter fun v => v.views == n).Sublist
        ((arraySort byViewsDesc (filteredVideos items)).filter fun v => v.views == n) :=
      List.Sublist.filter _ (List.take_sublist 10 _)
    rw [arraySort_filter_views] at h1
    exact h1.trans ((List.filter_sublist _).trans (filteredVideos_sublist items))
  refine ⟨key, ?_⟩
  intro a b hab hv
  have h2 : ([a, b].filter fun v => v.views == b.views).Sublist
      ((youtubeVideos items).filter fun v => v.views == b.views) :=
    List.Sublist.filter _ hab
  have h3 : ([a, b].filter fun v => v.views == b.views) = [a, b] := by
    simp [List.filter_cons, hv]
  rw [h3] at h2
  exact h2.trans (key b.views)

/-- C8: the output of the pipeline has at most 10 records, whatever the
length of the input list. -/
theorem C8_output_at_most_ten (items : List RawVideo) :
    (youtubeVideos items).length ≤ 10 := by
  simp only [youtubeVideos, List.length_take]
  exact Nat.min_le_left _ _

/-- C9: a request body without the `topic` field is answered by each of the
roadmap, articles and projects handlers with status 400 and the body
`error: "Topic required"`, and no request is sent upstream. -/
theorem C9_missing_topic_rejected (parse : String → Option Json)
    (llm : ChatRequest → Upstream) (body : List (String × Json))
    (hmissing : getField "topic" body = none) :
    roadmapHandler parse llm body = ⟨[], ⟨400, .obj [("error", .str "Topic required")]⟩⟩ ∧
      articlesHandler parse llm body = ⟨[], ⟨400, .obj [("error", .str "Topic required")]⟩⟩ ∧
      projectsHandler parse llm body = ⟨[], ⟨400, .obj [("error", .str "Topic required")]⟩⟩ := by
  simp [roadmapHandler, articlesHandler, projectsHandler, hmissing, truthy, topicRequired]

/-- C9 at a body that only has the field `subject`. -/
theorem C9_missing_topic_rejected_witness :
    getField "topic" [("subject", Json.str "graphs")] = none ∧
      (roadmapHandler (fun _ => none) (fun _ => .rejected) [("subject", Json.str "graphs")] =
          ⟨[], ⟨400, .obj [("error", .str "Topic required")]⟩⟩ ∧
        articlesHandler (fun _ => none) (fun _ => .rejected) [("subject", Json.str "graphs")] =
          ⟨[], ⟨400, .obj [("error", .str "Topic required")]⟩⟩ ∧
        projectsHandler (fun _ => none) (fun _ => .rejected) [("subject", Json.str "graphs")] =
          ⟨[], ⟨400, .obj [("error", .str "Topic required")]⟩⟩) :=
  ⟨by rfl, C9_missing_topic_rejected _ _ _ (by rfl)⟩

theorem completeOrFallback_calls (parse : String → Option Json)
    (llm : ChatRequest → Upstream) (request : ChatRequest) (fallback : Json) :
    (completeOrFallback parse llm request fallback).calls = [request] := by
  unfold completeOrFallback
  split
  · rfl
  · rfl
  · split <;> rfl

theorem completeOrFallback_failure (parse : String → Option Json)
    (llm : ChatRequest → Upstream) (request : ChatRequest) (fallback : Json)
    (hfail : CallFailed llm (completeOrFallback parse llm request fallback) ∨
      TextUnparseable parse llm (completeOrFallback parse llm request fallback)) :
    (completeOrFallback parse llm request fallback).response = ⟨200, fallback⟩ := by
  have hreq : ∀ r ∈ (completeOrFallback parse llm request fallback).calls, r = request := by
    intro r hr
    rw [completeOrFallback_calls] at hr
    exact List.mem_singleton.1 hr
  rcases hfail with ⟨r, hr, hrej | hnone⟩ | ⟨r, hr, text, htext, hparse⟩
  · rw [hreq r hr] at hrej
    simp [completeOrFallback, hrej]
  · rw [hreq r hr] at hnone
    simp [completeOrFallback, hnone]
  · rw [hreq r hr] at htext
    simp [completeOrFallback, htext, hparse]

/-- C10: for a request whose body has a topic, whenever the upstream call
of a handler fails, or the text it returns does not parse as JSON once the
fence markers are removed and it is trimmed, the handler answers with
status 200 and its fixed fallback: the five roadmap steps under the key
`roadmap`, the single article record, the five project strings. -/
theorem C10_fallback_on_upstream_failure (parse : String → Option Json)
    (llm : ChatRequest → Upstream) (body : List (String × Json)) (topic : Json)
    (hpresent : getField "topic" body = some topic) :
    ((CallFailed llm (roadmapHandler parse llm body) ∨
        TextUnparseable parse llm (roadmapHandler parse llm body)) →
      (roadmapHandler parse llm body).response =
        ⟨200, .obj [("roadmap", .arr [.str "Learn fundamentals",
          .str "Understand core concepts", .str "Practice with examples",
          .str "Build projects", .str "Advanced topics"])]⟩) ∧
    ((CallFailed llm (articlesHandler parse llm body) ∨
        TextUnparseable parse llm (articlesHandler parse llm body)) →
      (articlesHandler parse llm body).response =
        ⟨200, .arr [.obj [("title", .str "Getting Started Guide"),
          ("description", .str "Beginner friendly introduction"),
          ("author", .str "freeCodeCamp"), ("url", .str "#")]]⟩) ∧
    ((CallFailed llm (projectsHandler parse llm body) ∨
        TextUnparseable parse llm (projectsHandler parse llm body)) →
      (projectsHandler parse llm body).response =
        ⟨200, .arr [.str "Build a simple app", .str "Create a small game",
          .str "Develop a portfolio project", .str "Automate a task",
          .str "Open-source contribution"]⟩) := by
  refine ⟨?_, ?_, ?_⟩
  · intro hfail
    by_cases ht : truthy (some topic) = true
    · simp only [roadmapHandler, hpresent, ht, Bool.not_true, Bool.false_eq_true,
        if_false] at hfail ⊢
      exact completeOrFallback_failure _ _ _ _ hfail
    · simp [roadmapHandler, hpresent, ht, CallFailed, TextUnparseable] at hfail
  · intro hfail
    by_cases ht : truthy (some topic) = true
    · simp only [articlesHandler, hpresent, ht, Bool.not_true, Bool.false_eq_true,
        if_false] at hfail ⊢
      exact completeOrFallback_failure _ _ _ _ hfail
    · simp [articlesHandler, hpresent, ht, CallFailed, TextUnparseable] at hfail
  · intro hfail
    by_cases ht : truthy (some topic) = true
    · simp only [projectsHandler, hpresent, ht, Bool.not_true, Bool.false_eq_true,
        if_false] at hfail ⊢
      exact completeOrFallback_failure _ _ _ _ hfail
    · simp [projectsHandler, hpresent, ht, CallFailed, TextUnparseable] at hfail

/-- C10 at the topic `graphs`: a rejected call for the roadmap handler, an
unparseable text for the articles handler. -/
theorem C10_fallback_on_upstream_failure_witness :
    getField "topic" [("topic", Json.str "graphs")] = some (Json.str "graphs") ∧
      CallFailed (fun _ => Upstream.rejected)
        (roadmapHandler (fun _ => none) (fun _ => Upstream.rejected)
          [("topic", Json.str "graphs")]) ∧
      TextUnparseable (fun _ => none) (fun _ => Upstream.resolved (some "Sorry, no."))
        (articlesHandler (fun _ => none) (fun _ => Upstream.resolved (some "Sorry, no."))
          [("topic", Json.str "graphs")]) ∧
      (roadmapHandler (fun _ => none) (fun _ => Upstream.rejected)
          [("topic", Json.str "graphs")]).response =
        ⟨200, .obj [("roadmap", .arr [.str "Learn fundamentals",
          .str "Understand core concepts", .str "Practice with examples",
          .str "Build projects", .str "Advanced topics"])]⟩ ∧
      (articlesHandler (fun _ => none) (fun _ => Upstream.resolved (some "Sorry, no."))
          [("topic", Json.str "graphs")]).response =
        ⟨200, .arr [.obj [("title", .str "Getting Started Guide"),
          ("description", .str "Beginner friendly introduction"),
          ("author", .str "freeCodeCamp"), ("url", .str "#")]]⟩ :=
  have hcall : CallFailed (fun _ => Upstream.rejected)
      (roadmapHandler (fun _ => none) (fun _ => Upstream.rejected)
        [("topic", Json.str "graphs")]) :=
    ⟨_, List.mem_singleton.2 rfl, Or.inl rfl⟩
  have htext : TextUnparseable (fun _ => none) (fun _ => Upstream.resolved (some "Sorry, no."))
      (articlesHandler (fun _ => none) (fun _ => Upstream.resolved (some "Sorry, no."))
        [("topic", Json.str "graphs")]) :=
    ⟨_, List.mem_singleton.2 rfl, "Sorry, no.", rfl, rfl⟩
  ⟨rfl, hcall, htext,
    (C10_fallback_on_upstream_failure (fun _ => none) (fun _ => Upstream.rejected)
      [("topic", Json.str "graphs")] (Json.str "graphs") rfl).1 (Or.inl hcall),
    (C10_fallback_on_upstream_failure (fun _ => none)
      (fun _ => Upstream.resolved (some "Sorry, no."))
      [("topic", Json.str "graphs")] (Json.str "graphs") rfl).2.1 (Or.inr htext)⟩

/-- C7: in every record of the output, the title immediately followed by
the description contains one of `tutorial`, `course`, `learn`, the case of
the letters disregarded; that is, the text matches `/tutorial|course|learn/i`. -/
theorem C7_output_matches_keyword (items : List RawVideo) :
    ∀ r ∈ youtubeVideos items,
      ContainsKeyword (r.title ++ r.description) ∧
        keywordTest (r.title ++ r.description) = true := by
  intro r hr
  have hmem := mem_youtubeVideos hr
  simp only [filteredVideos, List.mem_filter] at hmem
  exact ⟨containsKeyword_of_keywordTest _ hmem.2, hmem.2⟩

/-- C7 at a record whose keyword is in its description, in upper case. -/
theorem C7_output_matches_keyword_witness :
    mapVideo ⟨"v1", "Graphs", "A full COURSE", "t.jpg", "PT10M", some 7⟩ ∈
        youtubeVideos [⟨"v1", "Graphs", "A full COURSE", "t.jpg", "PT10M", some 7⟩] ∧
      ContainsKeyword ("Graphs" ++ "A full COURSE") ∧
      keywordTest ("Graphs" ++ "A full COURSE") = true :=
  ⟨by decide,
    C7_output_matches_keyword [⟨"v1", "Graphs", "A full COURSE", "t.jpg", "PT10M", some 7⟩]
      (mapVideo ⟨"v1", "Graphs", "A full COURSE", "t.jpg", "PT10M", some 7⟩) (by decide)⟩

/-- C6 at three items of which the first and the last have 7 views. -/
theorem C6_ranking_stable_witness :
    [mapVideo ⟨"a", "Learn X", "", "t", "PT10M", some 7⟩,
        mapVideo ⟨"c", "Learn Z", "", "t", "PT20M", some 7⟩].Sublist
      (youtubeVideos [⟨"a", "Learn X", "", "t", "PT10M", some 7⟩,
        ⟨"b", "Learn Y", "", "t", "PT30M", some 9⟩,
        ⟨"c", "Learn Z", "", "t", "PT20M", some 7⟩]) ∧
    [mapVideo ⟨"a", "Learn X", "", "t", "PT10M", some 7⟩,
        mapVideo ⟨"c", "Learn Z", "", "t", "PT20M", some 7⟩].Sublist
      ([⟨"a", "Learn X", "", "t", "PT10M", some 7⟩,
        ⟨"b", "Learn Y", "", "t", "PT30M", some 9⟩,
        ⟨"c", "Learn Z", "", "t", "PT20M", some 7⟩].map mapVideo) :=
  ⟨by decide, (C6_ranking_stable _).2 _ _ (by decide) rfl⟩

/-- C2: `isoToSec` on the well-formed duration `PT5M0S`, which stands for
300 seconds: the code returns the string `"3000"` (the number 300 followed by
the text of the seconds component), not the number 300.  On `PT1H`, which has
no seconds component, it returns the number 3600. -/
theorem C2_isoToSec_concatenates_seconds :
    WellFormed "PT5M0S" none (some ['5']) (some ['0']) ∧
      specSeconds none (some ['5']) (some ['0']) = 300 ∧
      isoToSec "PT5M0S" = .str "3000" ∧
      isoToSec "PT5M0S" ≠ .num 300 ∧
      isoToSec "PT1H" = .num 3600 := by
  refine ⟨⟨?_, ?_, ?_, rfl⟩, by decide, by decide, by decide, by decide⟩
  · intro ds h; cases h
  · intro ds h
    cases h
    exact ⟨by simp, by decide⟩
  · intro ds h
    cases h
    exact ⟨by simp, by decide⟩

/-- C1: a list with one record whose duration is the well-formed `PT1M5S`,
65 seconds: `isoToSec` yields the string `"605"`, the comparison with
`MIN_DURATION` reads it as 605, and the record is in the output although its
duration is below 300 seconds. -/
theorem C1_short_video_passes_filter :
    WellFormed "PT1M5S" none (some ['1']) (some ['5']) ∧
      specSeconds none (some ['1']) (some ['5']) = 65 ∧
      youtubeVideos [⟨"v1", "Learn to cook", "", "t.jpg", "PT1M5S", some 7⟩] =
        [⟨"v1", "Learn to cook", "", "t.jpg", "PT1M5S", .str "605", 7⟩] := by
  refine ⟨⟨?_, ?_, ?_, rfl⟩, by decide, by decide⟩
  · intro ds h; cases h
  · intro ds h
    cases h
    exact ⟨by simp, by decide⟩
  · intro ds h
    cases h
    exact ⟨by simp, by decide⟩

/-- C3, as stated, fails: `xPT10M` does not consist in its entirety of `PT`
and components, yet `isoToSec` decodes the duration it contains to 600 and a
record with this duration is in the output. -/
theorem C3_counterexample_embedded_duration :
    (¬ ∃ h m s, WellFormed "xPT10M" h m s) ∧
      isoToSec "xPT10M" = .num 600 ∧
      youtubeVideos [⟨"v1", "Learn to cook", "", "t.jpg", "xPT10M", some 7⟩] =
        [⟨"v1", "Learn to cook", "", "t.jpg", "xPT10M", .num 600, 7⟩] := by
  refine ⟨?_, by decide, by decide⟩
  rintro ⟨h, m, s, -, -, -, hdata⟩
  have hx : "xPT10M".data = 'x' :: "PT10M".data := rfl
  rw [hx] at hdata
  exact absurd (List.cons.inj hdata).1 (by decide)

/-- C3, amended: `isoToSec` raises on no string; it returns 0 for `PT`; and
it returns 0 for every string that holds no duration (the letters `PT` do
not occur next to each other in it, or their first occurrence is not
followed by a component), so that no record with such a duration is in the
output. -/
theorem C3_no_duration_decodes_to_zero :
    (∀ iso : String, ∃ v, isoToSecCall (.str iso) = .ok v) ∧
      isoToSec "PT" = .num 0 ∧
      (∀ iso : String, NoDuration iso →
        isoToSec iso = .num 0 ∧ jsGe (isoToSec iso) MIN_DURATION = false ∧
          ∀ items, ∀ r ∈ youtubeVideos items, r.duration ≠ iso) := by
  refine ⟨fun iso => ⟨_, rfl⟩, by decide, ?_⟩
  intro iso hno
  have h0 : isoToSec iso = .num 0 := isoToSec_of_noDuration iso hno
  have hge : jsGe (isoToSec iso) MIN_DURATION = false := by rw [h0]; rfl
  refine ⟨h0, hge, ?_⟩
  intro items r hr heq
  obtain ⟨hd, hpass, -⟩ := filteredVideos_spec (mem_youtubeVideos hr)
  rw [hd, heq, hge] at hpass
  exact Bool.false_ne_true hpass

/-- C3, amended, at the strings `five minutes` (no `PT`) and `xPT5` (a `PT`
followed by digits without a unit letter). -/
theorem C3_no_duration_decodes_to_zero_witness :
    NoDuration "five minutes" ∧ NoDuration "xPT5" ∧
      isoToSec "five minutes" = .num 0 ∧ isoToSec "xPT5" = .num 0 ∧
      jsGe (isoToSec "xPT5") MIN_DURATION = false :=
  have h1 : NoDuration "five minutes" := Or.inl (by decide)
  have h2 : NoDuration "xPT5" :=
    Or.inr ⟨['x'], ['5'], rfl, by decide, by
      rintro ⟨ds, x, rest, ⟨hne, hall⟩, hx, hsplit⟩
      cases ds with
      | nil => exact hne rfl
      | cons d ds =>
        cases ds with
        | nil =>
          have h3 : ['5'] = d :: x :: rest := hsplit
          simp at h3
        | cons e ds =>
          have h3 : ['5'] = d :: e :: (ds ++ x :: rest) := hsplit
          simp at h3⟩
  ⟨h1, h2, (C3_no_duration_decodes_to_zero.2.2 "five minutes" h1).1,
    (C3_no_duration_decodes_to_zero.2.2 "xPT5" h2).1,
    (C3_no_duration_decodes_to_zero.2.2 "xPT5" h2).2.1⟩

/-- C4: a list of eleven records, all with well-formed durations and
matching titles, of which exactly one is worth at least 300 seconds.  Ten
records of `PT1M5S` (65 seconds, 5 views each) pass the duration test as
`"605"` and fill the ten places of the output; the record of `PT10M` (600
seconds, 1 view) is in the input once and in the output not at all.  In the
three-record scenario with the 120 seconds written `PT2M0S`, the 120 s
record is in the output, in first place. -/
theorem C4_qualifying_record_dropped :
    (∀ h m s, WellFormed "PT1M5S" h m s → specSeconds h m s = 65) ∧
      WellFormed "PT1M5S" none (some ['1']) (some ['5']) ∧
      WellFormed "PT10M" none (some ['1', '0']) none ∧
      specSeconds none (some ['1', '0']) none = 600 ∧
      ContainsKeyword ("Learn to cook" ++ "") ∧
      (List.map mapVideo
        (List.replicate 10 (⟨"m", "Learn to code", "", "t.jpg", "PT1M5S", some 5⟩ : RawVideo) ++
          [⟨"q", "Learn to cook", "", "t.jpg", "PT10M", some 1⟩])).count
        (mapVideo ⟨"q", "Learn to cook", "", "t.jpg", "PT10M", some 1⟩) = 1 ∧
      (youtubeVideos
        (List.replicate 10 (⟨"m", "Learn to code", "", "t.jpg", "PT1M5S", some 5⟩ : RawVideo) ++
          [⟨"q", "Learn to cook", "", "t.jpg", "PT10M", some 1⟩])).count
        (mapVideo ⟨"q", "Learn to cook", "", "t.jpg", "PT10M", some 1⟩) = 0 ∧
      youtubeVideos
        (List.replicate 10 (⟨"m", "Learn to code", "", "t.jpg", "PT1M5S", some 5⟩ : RawVideo) ++
          [⟨"q", "Learn to cook", "", "t.jpg", "PT10M", some 1⟩]) =
        List.replicate 10 ⟨"m", "Learn to code", "", "t.jpg", "PT1M5S", .str "605", 5⟩ ∧
      youtubeVideos [⟨"a", "Learn A", "", "t.jpg", "PT2M0S", some 50⟩,
          ⟨"b", "Learn B", "", "t.jpg", "PT6M40S", some 10⟩,
          ⟨"c", "Learn C", "", "t.jpg", "PT10M", some 30⟩] =
        [⟨"a", "Learn A", "", "t.jpg", "PT2M0S", .str "1200", 50⟩,
          ⟨"c", "Learn C", "", "t.jpg", "PT10M", .num 600, 30⟩,
          ⟨"b", "Learn B", "", "t.jpg", "PT6M40S", .str "36040", 10⟩] := by
  refine ⟨?_, ⟨?_, ?_, ?_, rfl⟩, ⟨?_, ?_, ?_, rfl⟩, by decide, ?_, by decide, by decide,
    by decide, by decide⟩
  · intro h m s hw
    have hm := isoMatch_wellFormed "PT1M5S" h m s hw
    have hcode : isoMatch "PT1M5S".data = some ⟨none, some ['1'], some ['5']⟩ := by decide
    rw [hcode] at hm
    simp only [Option.some.injEq, Groups.mk.injEq] at hm
    obtain ⟨h1, h2, h3⟩ := hm
    subst h1 h2 h3
    decide
  · intro ds h; cases h
  · intro ds h
    cases h
    exact ⟨by simp, by decide⟩
  · intro ds h
    cases h
    exact ⟨by simp, by decide⟩
  · intro ds h; cases h
  · intro ds h
    cases h
    exact ⟨by simp, by decide⟩
  · intro ds h; cases h
  · exact ⟨"learn", by simp, [], "Learn".data, " to cook".data, rfl, by decide⟩

end Atlasify
